import Mathlib

/-
Verification of the myless pager core (src/main.rs, src/ui.rs).

The interaction engine is embedded shallowly: the App struct (minus the
opaque terminal handle), the per-mode key handlers, and the scroll-window
computation inside main_ui. Strings are modelled as List Char; the
file-system capability is a parameter fs : List Char -> Except err content,
mirroring fs::read_to_string; the slice v[max_pos..] is modelled as an
Option that is none exactly when Rust would panic on an out-of-bounds
slice start.
-/

/-- The UiState enum from src/ui.rs. -/
inductive UiState where
  | Main
  | FilePrompt
  | SearchPrompt
deriving DecidableEq

/-- The crossterm KeyCode variants matched by the handlers, plus the other
variants that fall to the catch-all arms. -/
inductive KeyCode where
  | Char : Char → KeyCode
  | Esc : KeyCode
  | Enter : KeyCode
  | Backspace : KeyCode
  | Up : KeyCode
  | Down : KeyCode
  | Left : KeyCode
  | Right : KeyCode
  | Home : KeyCode
  | End : KeyCode
  | PageUp : KeyCode
  | PageDown : KeyCode
  | Tab : KeyCode
  | Delete : KeyCode
  | F : Nat → KeyCode
  | Null : KeyCode
deriving DecidableEq

/-- The single quote character, used by the Debug rendering of Char keys. -/
def quoteChar : Char := Char.ofNat 39

/-- The carriage-return character stripped by Rust str::lines. -/
def crChar : Char := Char.ofNat 13

/-- Rendering of format {:?} on a KeyCode, used by the catch-all log
messages. -/
def keyCodeDebug : KeyCode → List Char
  | .Char c => "Char(".toList ++ [quoteChar, c, quoteChar] ++ ")".toList
  | .Esc => "Esc".toList
  | .Enter => "Enter".toList
  | .Backspace => "Backspace".toList
  | .Up => "Up".toList
  | .Down => "Down".toList
  | .Left => "Left".toList
  | .Right => "Right".toList
  | .Home => "Home".toList
  | .End => "End".toList
  | .PageUp => "PageUp".toList
  | .PageDown => "PageDown".toList
  | .Tab => "Tab".toList
  | .Delete => "Delete".toList
  | .F n => "F(".toList ++ (toString n).toList ++ ")".toList
  | .Null => "Null".toList

/-- prompt_string from src/ui.rs. -/
def prompt_string : UiState → List Char
  | .Main => "".toList
  | .FilePrompt => "ENTER FILENAME: ".toList
  | .SearchPrompt => "SEARCH STRING: ".toList

/-- The App struct from src/ui.rs, minus the opaque terminal handle (an
external resource, out of the functional core). -/
structure App where
  filename : List Char
  tmpbuf : List Char
  content : List Char
  search : List Char
  lines : Nat
  log : List Char
  cur : Nat
  state : UiState
deriving DecidableEq

/-- The file-system capability: fs::read_to_string returns the file text or
an error whose Debug text is carried in the error branch. -/
def FS : Type := List Char → Except (List Char) (List Char)

/-- count_newlines from src/ui.rs: the number of newline bytes in s. -/
def count_newlines (s : List Char) : Nat :=
  (s.filter (fun c => c = '\n')).length

/-- Splitting at newline characters, the final line ending optional: the
split part of Rust str::lines as used by main_ui. -/
def splitNL : List Char → List (List Char)
  | [] => []
  | c :: cs =>
    if c = '\n' then [] :: splitNL cs
    else
      match splitNL cs with
      | [] => [[c]]
      | l :: ls => (c :: l) :: ls

/-- Stripping the trailing carriage return of one line, as Rust str::lines
does. -/
def stripCR (l : List Char) : List Char :=
  if l.getLast? = some crChar then l.dropLast else l

/-- content.lines().collect() from main_ui in src/ui.rs. -/
def rustLines (s : List Char) : List (List Char) :=
  (splitNL s).map stripCR

/-- App::new from src/ui.rs: the initial read must succeed, the terminal is
set up (external), and the fields are initialised. -/
def App.new (fs : FS) (filename : List Char) : Option App :=
  match fs filename with
  | .error _ => none
  | .ok content =>
    some { filename := filename
           tmpbuf := "".toList
           content := content
           search := "".toList
           lines := count_newlines content
           log := "<log text goes here>".toList
           cur := 0
           state := UiState.Main }

/-- handle_main_key_event from src/ui.rs: key dispatch in the Main state. -/
def handle_main_key_event (a : App) (key : KeyCode) : App × Bool :=
  match key with
  | .Char c =>
    if c = 'q' then (a, true)
    else if c = 'o' then
      ({ a with state := UiState.FilePrompt
                log := prompt_string UiState.FilePrompt }, false)
    else if c = 's' then
      ({ a with state := UiState.SearchPrompt
                log := prompt_string UiState.SearchPrompt }, false)
    else
      ({ a with log := "Got KeyCode ".toList ++ keyCodeDebug (.Char c) },
       false)
  | .Esc => (a, true)
  | .Down =>
    ({ a with cur := a.cur + 1, log := "Got KeyCode Down".toList }, false)
  | .Up =>
    ({ a with cur := if a.cur > 0 then a.cur - 1 else a.cur
              log := "Got KeyCode Up".toList }, false)
  | x =>
    ({ a with log := "Got KeyCode ".toList ++ keyCodeDebug x }, false)

/-- handle_input_key_event from src/ui.rs: key dispatch in the two prompt
states. -/
def handle_input_key_event (fs : FS) (a : App) (key : KeyCode) :
    App × Bool :=
  match key with
  | .Esc => (a, true)
  | .Enter =>
    if a.state = UiState.FilePrompt then
      let content :=
        match fs a.tmpbuf with
        | .ok txt => txt
        | .error e => "ERROR: ".toList ++ e
      ({ a with filename := a.tmpbuf
                log := "Got: ".toList ++ a.tmpbuf
                tmpbuf := "".toList
                cur := 0
                lines := count_newlines content
                content := content
                state := UiState.Main }, false)
    else if a.state = UiState.SearchPrompt then
      ({ a with search := a.tmpbuf
                log := "Got: ".toList ++ a.tmpbuf
                tmpbuf := "".toList
                state := UiState.Main }, false)
    else (a, false)
  | .Backspace =>
    ({ a with tmpbuf := a.tmpbuf.dropLast
              log := prompt_string a.state ++ ": ".toList
                       ++ a.tmpbuf.dropLast }, false)
  | .Char c =>
    ({ a with tmpbuf := a.tmpbuf ++ [c]
              log := prompt_string a.state ++ " ".toList
                       ++ a.tmpbuf ++ [c] }, false)
  | _ => (a, false)

/-- handle_key_event from src/ui.rs: dispatch on the current state. -/
def handle_key_event (fs : FS) (a : App) (key : KeyCode) : App × Bool :=
  match a.state with
  | UiState.FilePrompt => handle_input_key_event fs a key
  | UiState.SearchPrompt => handle_input_key_event fs a key
  | UiState.Main => handle_main_key_event a key

/-- The content-frame part of main_ui from src/ui.rs: given the requested
cur_pos, the line count, the content and the content-frame height, it
returns the written-back cur_pos (max_pos) and the visible slice, where
none marks the out-of-bounds slice start on which Rust panics. -/
def main_ui (cur_pos : Nat) (lines : Nat) (content : List Char)
    (height : Nat) : Nat × Option (List (List Char)) :=
  let v := rustLines content
  let max_pos := if lines ≤ height then 0 else min (lines - height + 2) cur_pos
  let text := if max_pos ≤ v.length then some (v.drop max_pos) else none
  (max_pos, text)

/-- render_ui from src/ui.rs: draws the frame via main_ui, which writes the
clamped offset back into the session. -/
def render_ui (a : App) (height : Nat) : App × Option (List (List Char)) :=
  let r := main_ui a.cur a.lines a.content height
  ({ a with cur := r.1 }, r.2)

/-- One observable step of the control loop: a key event fed to the state
machine, or a render at a given content-frame height. -/
inductive Event where
  | key : KeyCode → Event
  | render : Nat → Event

/-- The state mutation performed by one event (the termination flag of a
key event is dropped here; a terminating key leaves the state unchanged). -/
def stepEvent (fs : FS) (a : App) : Event → App
  | .key k => (handle_key_event fs a k).1
  | .render h => (render_ui a h).1

/-- Running a sequence of events through the control loop. -/
def runEvents (fs : FS) (a : App) (evs : List Event) : App :=
  evs.foldl (stepEvent fs) a

/-- A session state reachable from some successful App::new by some event
sequence. -/
def Reachable (fs : FS) (a : App) : Prop :=
  ∃ fname a0 evs, App.new fs fname = some a0 ∧ a = runEvents fs a0 evs

/-- The number of lines contributed beyond the newline count: 1 when the
text is nonempty and not newline-terminated, else 0. -/
def extraLine : List Char → Nat
  | [] => 0
  | [c] => if c = '\n' then 0 else 1
  | _ :: c :: cs => extraLine (c :: cs)

/-! ### Helper lemmas -/

lemma splitNL_ne_nil (c : Char) (cs : List Char) : splitNL (c :: cs) ≠ [] := by
  simp only [splitNL]
  split
  · simp
  · split <;> simp

lemma count_newlines_nil : count_newlines [] = 0 := rfl

lemma count_newlines_cons (c : Char) (cs : List Char) :
    count_newlines (c :: cs)
      = count_newlines cs + (if c = '\n' then 1 else 0) := by
  by_cases h : c = '\n' <;>
    simp [count_newlines, List.filter_cons, h, Nat.add_comm]

lemma count_newlines_append (s t : List Char) :
    count_newlines (s ++ t) = count_newlines s + count_newlines t := by
  simp [count_newlines, List.filter_append]

lemma splitNL_cons_nl (cs : List Char) :
    splitNL ('\n' :: cs) = [] :: splitNL cs := by
  simp [splitNL]

lemma splitNL_length (s : List Char) :
    (splitNL s).length = count_newlines s + extraLine s := by
  induction s with
  | nil => simp [splitNL, count_newlines, extraLine]
  | cons c cs IH =>
    by_cases hc : c = '\n'
    · subst hc
      rw [splitNL_cons_nl, List.length_cons, IH, count_newlines_cons]
      cases cs with
      | nil => simp [extraLine, count_newlines]
      | cons d ds => simp [extraLine]; omega
    · cases cs with
      | nil =>
        simp [splitNL, hc, count_newlines_cons, count_newlines, extraLine]
      | cons d ds =>
        obtain ⟨l, ls, h⟩ : ∃ l ls, splitNL (d :: ds) = l :: ls := by
          cases h2 : splitNL (d :: ds) with
          | nil => exact absurd h2 (splitNL_ne_nil d ds)
          | cons l ls => exact ⟨l, ls, rfl⟩
        have hlhs : splitNL (c :: d :: ds) = (c :: l) :: ls := by
          rw [splitNL, if_neg hc, h]
        rw [hlhs, List.length_cons, count_newlines_cons, if_neg hc]
        rw [h] at IH
        simp only [List.length_cons] at IH
        simp only [extraLine]
        omega

lemma rustLines_length (s : List Char) :
    (rustLines s).length = count_newlines s + extraLine s := by
  rw [rustLines, List.length_map, splitNL_length]

lemma count_newlines_le_rustLines (s : List Char) :
    count_newlines s ≤ (rustLines s).length := by
  rw [rustLines_length]; omega

lemma extraLine_concat (t : List Char) (c : Char) :
    extraLine (t ++ [c]) = if c = '\n' then 0 else 1 := by
  induction t with
  | nil => rfl
  | cons a t IH =>
    cases t with
    | nil => simp [extraLine]
    | cons b t2 => simpa [extraLine] using IH

lemma main_ui_fst (cur lines : Nat) (content : List Char) (H : Nat) :
    (main_ui cur lines content H).1
      = if lines ≤ H then 0 else min (lines - H + 2) cur := rfl

lemma render_ui_cur (a : App) (H : Nat) :
    (render_ui a H).1.cur = (main_ui a.cur a.lines a.content H).1 := rfl

lemma render_ui_frame (a : App) (H : Nat) :
    (render_ui a H).1.filename = a.filename ∧
    (render_ui a H).1.tmpbuf = a.tmpbuf ∧
    (render_ui a H).1.content = a.content ∧
    (render_ui a H).1.search = a.search ∧
    (render_ui a H).1.lines = a.lines ∧
    (render_ui a H).1.log = a.log ∧
    (render_ui a H).1.state = a.state := by
  refine ⟨rfl, rfl, rfl, rfl, rfl, rfl, rfl⟩

lemma clamp_le (lines H cur : Nat) :
    (((if lines ≤ H then 0 else min (lines - H + 2) cur : Nat)) : ℤ)
      ≤ max 0 ((lines : ℤ) - H + 2) := by
  split
  · simp
  · have h1 : min (lines - H + 2) cur ≤ lines - H + 2 := Nat.min_le_left _ _
    omega

lemma handle_main_frame (a : App) (k : KeyCode) :
    (handle_main_key_event a k).1.filename = a.filename ∧
    (handle_main_key_event a k).1.content = a.content ∧
    (handle_main_key_event a k).1.lines = a.lines ∧
    (handle_main_key_event a k).1.search = a.search ∧
    (handle_main_key_event a k).1.tmpbuf = a.tmpbuf := by
  cases k <;> (simp only [handle_main_key_event]; (try split_ifs) <;> simp)

lemma handle_main_down (a : App) :
    handle_main_key_event a KeyCode.Down
      = ({ a with cur := a.cur + 1, log := "Got KeyCode Down".toList },
         false) := rfl

lemma handle_main_up (a : App) :
    handle_main_key_event a KeyCode.Up
      = ({ a with cur := if a.cur > 0 then a.cur - 1 else a.cur
                  log := "Got KeyCode Up".toList }, false) := rfl

lemma handle_key_event_main (fs : FS) (a : App)
    (h : a.state = UiState.Main) (k : KeyCode) :
    handle_key_event fs a k = handle_main_key_event a k := by
  rcases a with ⟨f, t, c, s, l, lg, cur, st⟩
  simp only at h
  subst h
  rfl

lemma handle_key_event_file (fs : FS) (a : App)
    (h : a.state = UiState.FilePrompt) (k : KeyCode) :
    handle_key_event fs a k = handle_input_key_event fs a k := by
  rcases a with ⟨f, t, c, s, l, lg, cur, st⟩
  simp only at h
  subst h
  rfl

lemma handle_key_event_search (fs : FS) (a : App)
    (h : a.state = UiState.SearchPrompt) (k : KeyCode) :
    handle_key_event fs a k = handle_input_key_event fs a k := by
  rcases a with ⟨f, t, c, s, l, lg, cur, st⟩
  simp only at h
  subst h
  rfl

lemma runEvents_nil (fs : FS) (a : App) : runEvents fs a [] = a := rfl

lemma runEvents_cons (fs : FS) (a : App) (ev : Event) (evs : List Event) :
    runEvents fs a (ev :: evs) = runEvents fs (stepEvent fs a ev) evs := rfl

lemma runEvents_inv (fs : FS) (P : App → Prop) (evs : List Event)
    (hstep : ∀ ev ∈ evs, ∀ b, P b → P (stepEvent fs b ev)) :
    ∀ a, P a → P (runEvents fs a evs) := by
  induction evs with
  | nil => intro a h; exact h
  | cons ev evs IH =>
    intro a h
    rw [runEvents_cons]
    exact IH (fun e he b hb => hstep e (List.mem_cons_of_mem ev he) b hb)
      (stepEvent fs a ev) (hstep ev (List.mem_cons_self ev evs) a h)

/-- The key events produced by typing the characters cs in order. -/
def charEvents (cs : List Char) : List Event :=
  cs.map (fun c => Event.key (KeyCode.Char c))

/-- n Backspace key events. -/
def backEvents (n : Nat) : List Event :=
  List.replicate n (Event.key KeyCode.Backspace)

/-- Events allowed while scrolling in Viewing mode: Up, Down, or a render. -/
def IsUpDownOrRender (ev : Event) : Prop :=
  ev = Event.key KeyCode.Up ∨ ev = Event.key KeyCode.Down ∨
    ∃ h, ev = Event.render h

/-- A session is in one of the two prompting modes. -/
def InPrompt (a : App) : Prop :=
  a.state = UiState.FilePrompt ∨ a.state = UiState.SearchPrompt

lemma handle_key_event_prompt (fs : FS) (a : App) (hp : InPrompt a)
    (k : KeyCode) :
    handle_key_event fs a k = handle_input_key_event fs a k := by
  rcases hp with h | h
  · exact handle_key_event_file fs a h k
  · exact handle_key_event_search fs a h k

lemma handle_input_char (fs : FS) (a : App) (c : Char) :
    handle_input_key_event fs a (KeyCode.Char c)
      = ({ a with tmpbuf := a.tmpbuf ++ [c]
                  log := prompt_string a.state ++ " ".toList
                           ++ a.tmpbuf ++ [c] }, false) := rfl

lemma handle_input_back (fs : FS) (a : App) :
    handle_input_key_event fs a KeyCode.Backspace
      = ({ a with tmpbuf := a.tmpbuf.dropLast
                  log := prompt_string a.state ++ ": ".toList
                           ++ a.tmpbuf.dropLast }, false) := rfl

lemma runEvents_chars (fs : FS) (cs : List Char) : ∀ a : App, InPrompt a →
    (runEvents fs a (charEvents cs)).tmpbuf = a.tmpbuf ++ cs ∧
    (runEvents fs a (charEvents cs)).state = a.state := by
  induction cs with
  | nil => intro a _; simp [charEvents, runEvents_nil]
  | cons c cs IH =>
    intro a hp
    have hstep : stepEvent fs a (Event.key (KeyCode.Char c))
        = { a with tmpbuf := a.tmpbuf ++ [c]
                   log := prompt_string a.state ++ " ".toList
                            ++ a.tmpbuf ++ [c] } := by
      simp [stepEvent, handle_key_event_prompt fs a hp, handle_input_char]
    have hcons : charEvents (c :: cs)
        = Event.key (KeyCode.Char c) :: charEvents cs := rfl
    rw [hcons, runEvents_cons, hstep]
    have hp2 : InPrompt { a with
        tmpbuf := a.tmpbuf ++ [c]
        log := prompt_string a.state ++ " ".toList ++ a.tmpbuf ++ [c] } := hp
    obtain ⟨h1, h2⟩ := IH _ hp2
    exact ⟨by rw [h1]; simp, by rw [h2]⟩

lemma runEvents_backs (fs : FS) (n : Nat) : ∀ a : App, InPrompt a →
    (runEvents fs a (backEvents n)).tmpbuf
        = (List.dropLast)^[n] a.tmpbuf ∧
    (runEvents fs a (backEvents n)).state = a.state := by
  induction n with
  | zero => intro a _; simp [backEvents, runEvents_nil]
  | succ n IH =>
    intro a hp
    have hstep : stepEvent fs a (Event.key KeyCode.Backspace)
        = { a with tmpbuf := a.tmpbuf.dropLast
                   log := prompt_string a.state ++ ": ".toList
                            ++ a.tmpbuf.dropLast } := by
      simp [stepEvent, handle_key_event_prompt fs a hp, handle_input_back]
    have hcons : backEvents (n + 1)
        = Event.key KeyCode.Backspace :: backEvents n := by
      simp [backEvents, List.replicate_succ]
    rw [hcons, runEvents_cons, hstep]
    have hp2 : InPrompt { a with
        tmpbuf := a.tmpbuf.dropLast
        log := prompt_string a.state ++ ": ".toList ++ a.tmpbuf.dropLast } :=
      hp
    obtain ⟨h1, h2⟩ := IH _ hp2
    refine ⟨?_, by rw [h2]⟩
    rw [h1, Function.iterate_succ_apply]

lemma iterate_dropLast_append (cs : List Char) :
    ∀ l : List Char, (List.dropLast)^[cs.length] (l ++ cs) = l := by
  induction cs using List.reverseRecOn with
  | nil => simp
  | append_singleton cs c IH =>
    intro l
    rw [List.length_append, List.length_singleton, Function.iterate_succ_apply]
    have h1 : (l ++ (cs ++ [c])).dropLast = l ++ cs := by
      rw [← List.append_assoc, List.dropLast_concat]
    rw [h1]
    exact IH l

lemma main_ui_snd (cur lines : Nat) (content : List Char) (H : Nat) :
    (main_ui cur lines content H).2
      = (if (if lines ≤ H then 0 else min (lines - H + 2) cur)
            ≤ (rustLines content).length
         then some ((rustLines content).drop
            (if lines ≤ H then 0 else min (lines - H + 2) cur))
         else none) := rfl

/-! ### Concrete fixtures used by the witness theorems -/

/-- A file system on which every read succeeds with empty content. -/
def fsEmpty : FS := fun _ => Except.ok []

/-- A file system on which every read fails. -/
def fsFail : FS := fun _ => Except.error "No such file".toList

/-- A concrete Viewing-mode session over a three-line file, with a
requested offset of 5. -/
def appViewing : App :=
  { filename := "foo".toList
    tmpbuf := []
    content := "a\nb\nc\n".toList
    search := []
    lines := 3
    log := []
    cur := 5
    state := UiState.Main }

/-- A concrete session sitting in the open-file prompt with text typed. -/
def appPrompting : App :=
  { filename := "foo".toList
    tmpbuf := "new.txt".toList
    content := "a\nb\nc\n".toList
    search := []
    lines := 3
    log := []
    cur := 4
    state := UiState.FilePrompt }

/-! ### Claim theorems -/

/-- Claim C1: at render time the effective offset is 0 when
line_count ≤ H and min(requested, line_count − H + 2) otherwise, it is
written back into the scroll-offset field, and a subsequent Up press
decrements from the written-back clamped value. -/
theorem c1_render_scroll_clamp (fs : FS) (a : App) (H : Nat) :
    (a.lines ≤ H → (render_ui a H).1.cur = 0) ∧
    (H < a.lines →
        (render_ui a H).1.cur = min a.cur (a.lines - H + 2)) ∧
    (a.state = UiState.Main →
        (handle_key_event fs (render_ui a H).1 KeyCode.Up).1.cur
          = (render_ui a H).1.cur - 1) := by
  refine ⟨?_, ?_, ?_⟩
  · intro h
    rw [render_ui_cur, main_ui_fst, if_pos h]
  · intro h
    rw [render_ui_cur, main_ui_fst, if_neg (Nat.not_le.mpr h), Nat.min_comm]
  · intro h
    have hs : (render_ui a H).1.state = UiState.Main := h
    rw [handle_key_event_main fs _ hs, handle_main_up]
    by_cases h0 : (render_ui a H).1.cur > 0
    · simp [h0]
    · simp only [if_neg h0]
      omega

/-- Claim C1 witness: concrete sessions exercising both branches of the
clamp and the follow-up Up press. -/
theorem c1_render_scroll_clamp_witness :
    (render_ui appViewing 10).1.cur = 0 ∧
    (render_ui appViewing 2).1.cur
        = min appViewing.cur (appViewing.lines - 2 + 2) ∧
    (handle_key_event fsEmpty (render_ui appViewing 2).1 KeyCode.Up).1.cur
        = (render_ui appViewing 2).1.cur - 1 :=
  ⟨(c1_render_scroll_clamp fsEmpty appViewing 10).1 (by decide),
   (c1_render_scroll_clamp fsEmpty appViewing 2).2.1 (by decide),
   (c1_render_scroll_clamp fsEmpty appViewing 2).2.2 (by decide)⟩

/-- Claim C3 counterexample: with content of one newline-terminated line,
height 0 and requested offset 3, the slice start (3) exceeds the number
of collected lines (1), so the slice of Rust would panic: the model
returns none. -/
theorem c3_slice_counterexample :
    (main_ui 3 (count_newlines "a\n".toList) "a\n".toList 0).2 = none := by
  decide

/-- Claim C3 (amended): the computation is total and at H = 0 the
arithmetic is the non-underflowing line_count + 2; an empty file yields
offset 0 and an empty slice; and whenever H ≥ 2 (with line_count the
newline count of the content) the slice start is in bounds, so the slice
cannot fail. -/
theorem c3_amended_safety (content : List Char) (H cur : Nat) :
    (H = 0 → (main_ui cur (count_newlines content) content H).1
        = if count_newlines content = 0 then 0
          else min (count_newlines content + 2) cur) ∧
    (content = [] →
        (main_ui cur (count_newlines content) content H).1 = 0 ∧
        (main_ui cur (count_newlines content) content H).2 = some []) ∧
    (2 ≤ H → ∃ sl, (main_ui cur (count_newlines content) content H).2
        = some sl) := by
  refine ⟨?_, ?_, ?_⟩
  · intro h
    subst h
    rw [main_ui_fst]
    rcases Nat.eq_zero_or_pos (count_newlines content) with h0 | h0
    · rw [h0]; simp
    · rw [if_neg (by omega), if_neg (by omega), Nat.sub_zero]
  · intro h
    subst h
    refine ⟨by rw [main_ui_fst]; simp [count_newlines], ?_⟩
    rw [main_ui_snd]
    simp [count_newlines, rustLines, splitNL]
  · intro hH
    rw [main_ui_snd]
    have hle : (if count_newlines content ≤ H then 0
          else min (count_newlines content - H + 2) cur)
        ≤ (rustLines content).length := by
      split
      · exact Nat.zero_le _
      · have h1 := count_newlines_le_rustLines content
        have h2 : min (count_newlines content - H + 2) cur
            ≤ count_newlines content - H + 2 := Nat.min_le_left _ _
        omega
    rw [if_pos hle]
    exact ⟨_, rfl⟩

/-- Claim C3 (amended) witness: concrete inputs exercising the three
conjuncts. -/
theorem c3_amended_safety_witness :
    ((main_ui 7 (count_newlines "a\nb".toList) "a\nb".toList 0).1
        = if count_newlines "a\nb".toList = 0 then 0
          else min (count_newlines "a\nb".toList + 2) 7) ∧
    ((main_ui 7 (count_newlines ([] : List Char)) [] 9).1 = 0 ∧
        (main_ui 7 (count_newlines ([] : List Char)) [] 9).2 = some []) ∧
    (∃ sl, (main_ui 7 (count_newlines "a\nb".toList) "a\nb".toList 2).2
        = some sl) :=
  ⟨(c3_amended_safety "a\nb".toList 0 7).1 rfl,
   (c3_amended_safety [] 9 7).2.1 rfl,
   (c3_amended_safety "a\nb".toList 2 7).2.2 (by decide)⟩

/-- Claim C8: Esc in either prompting mode signals termination of the
session and mutates no field. -/
theorem c8_esc_terminates (fs : FS) (a : App) (hp : InPrompt a) :
    handle_key_event fs a KeyCode.Esc = (a, true) := by
  rw [handle_key_event_prompt fs a hp]
  rfl

/-- Claim C8 witness: Esc on a concrete open-file prompt session. -/
theorem c8_esc_terminates_witness :
    handle_key_event fsEmpty appPrompting KeyCode.Esc
      = (appPrompting, true) :=
  c8_esc_terminates fsEmpty appPrompting (Or.inl rfl)

/-- Claim C10: Down and Up in Viewing mode change at most cur and log:
filename, content, lines, search, tmpbuf and state are unchanged and no
termination is signalled. -/
theorem c10_updown_frame (fs : FS) (a : App) (k : KeyCode)
    (hm : a.state = UiState.Main)
    (hk : k = KeyCode.Down ∨ k = KeyCode.Up) :
    (handle_key_event fs a k).2 = false ∧
    (handle_key_event fs a k).1.filename = a.filename ∧
    (handle_key_event fs a k).1.content = a.content ∧
    (handle_key_event fs a k).1.lines = a.lines ∧
    (handle_key_event fs a k).1.search = a.search ∧
    (handle_key_event fs a k).1.tmpbuf = a.tmpbuf ∧
    (handle_key_event fs a k).1.state = a.state := by
  rw [handle_key_event_main fs a hm]
  rcases hk with rfl | rfl
  · rw [handle_main_down]
    exact ⟨rfl, rfl, rfl, rfl, rfl, rfl, rfl⟩
  · rw [handle_main_up]
    exact ⟨rfl, rfl, rfl, rfl, rfl, rfl, rfl⟩

/-- Claim C10 witness: a Down press on a concrete Viewing session. -/
theorem c10_updown_frame_witness :
    (handle_key_event fsEmpty appViewing KeyCode.Down).2 = false ∧
    (handle_key_event fsEmpty appViewing KeyCode.Down).1.filename
        = appViewing.filename ∧
    (handle_key_event fsEmpty appViewing KeyCode.Down).1.content
        = appViewing.content ∧
    (handle_key_event fsEmpty appViewing KeyCode.Down).1.lines
        = appViewing.lines ∧
    (handle_key_event fsEmpty appViewing KeyCode.Down).1.search
        = appViewing.search ∧
    (handle_key_event fsEmpty appViewing KeyCode.Down).1.tmpbuf
        = appViewing.tmpbuf ∧
    (handle_key_event fsEmpty appViewing KeyCode.Down).1.state
        = appViewing.state :=
  c10_updown_frame fsEmpty appViewing KeyCode.Down rfl (Or.inl rfl)

lemma handle_input_enter_file (fs : FS) (a : App)
    (hp : a.state = UiState.FilePrompt) :
    handle_input_key_event fs a KeyCode.Enter
      = ({ a with filename := a.tmpbuf
                  log := "Got: ".toList ++ a.tmpbuf
                  tmpbuf := "".toList
                  cur := 0
                  lines := count_newlines (match fs a.tmpbuf with
                    | .ok txt => txt
                    | .error e => "ERROR: ".toList ++ e)
                  content := (match fs a.tmpbuf with
                    | .ok txt => txt
                    | .error e => "ERROR: ".toList ++ e)
                  state := UiState.Main }, false) := by
  simp only [handle_input_key_event, if_pos hp]

lemma handle_input_enter_search (fs : FS) (a : App)
    (hp : a.state = UiState.SearchPrompt) :
    handle_input_key_event fs a KeyCode.Enter
      = ({ a with search := a.tmpbuf
                  log := "Got: ".toList ++ a.tmpbuf
                  tmpbuf := "".toList
                  state := UiState.Main }, false) := by
  simp only [handle_input_key_event, hp]
  simp

/-- Claim C4: Enter in the open-file prompt sets active_filename to the
prompt buffer, loads (or diagnoses) that file as the new content, resets
scroll_offset to 0, clears the prompt buffer, returns to Viewing, and
recomputes line_count as the number of newline bytes of the new content,
a trailing unterminated final line being counted as one more collected
line but not as an extra newline. -/
theorem c4_open_commit (fs : FS) (a : App)
    (hp : a.state = UiState.FilePrompt) :
    (handle_input_key_event fs a KeyCode.Enter).2 = false ∧
    (handle_input_key_event fs a KeyCode.Enter).1.filename = a.tmpbuf ∧
    (handle_input_key_event fs a KeyCode.Enter).1.content
        = (match fs a.tmpbuf with
           | .ok txt => txt
           | .error e => "ERROR: ".toList ++ e) ∧
    (handle_input_key_event fs a KeyCode.Enter).1.cur = 0 ∧
    (handle_input_key_event fs a KeyCode.Enter).1.tmpbuf = [] ∧
    (handle_input_key_event fs a KeyCode.Enter).1.state = UiState.Main ∧
    (handle_input_key_event fs a KeyCode.Enter).1.lines
        = count_newlines
            (handle_input_key_event fs a KeyCode.Enter).1.content ∧
    (∀ (t : List Char) (c : Char), c ≠ '\n' →
        count_newlines (t ++ [c]) = count_newlines t ∧
        (rustLines (t ++ [c])).length = count_newlines (t ++ [c]) + 1) := by
  rw [handle_input_enter_file fs a hp]
  refine ⟨rfl, rfl, rfl, rfl, rfl, rfl, rfl, ?_⟩
  intro t c hc
  constructor
  · rw [count_newlines_append, count_newlines_cons, count_newlines_nil,
      if_neg hc]
    omega
  · rw [rustLines_length, extraLine_concat, if_neg hc]

/-- Claim C4 witness: committing the prompt on a concrete session whose
read succeeds with empty content. -/
theorem c4_open_commit_witness :
    (handle_input_key_event fsEmpty appPrompting KeyCode.Enter).2 = false ∧
    (handle_input_key_event fsEmpty appPrompting KeyCode.Enter).1.filename
        = "new.txt".toList ∧
    (handle_input_key_event fsEmpty appPrompting KeyCode.Enter).1.cur = 0 ∧
    (handle_input_key_event fsEmpty appPrompting KeyCode.Enter).1.tmpbuf
        = [] ∧
    (handle_input_key_event fsEmpty appPrompting KeyCode.Enter).1.state
        = UiState.Main ∧
    (handle_input_key_event fsEmpty appPrompting KeyCode.Enter).1.lines
        = count_newlines
            (handle_input_key_event fsEmpty appPrompting
              KeyCode.Enter).1.content := by
  obtain ⟨h1, h2, h3, h4, h5, h6, h7, h8⟩ :=
    c4_open_commit fsEmpty appPrompting rfl
  exact ⟨h1, h2, h4, h5, h6, h7⟩

/-- Claim C5: committing the open-file prompt on an unreadable path does
not terminate: content becomes the diagnostic string embedding the error,
line_count is recomputed from it, and the session returns to Viewing. -/
theorem c5_open_error (fs : FS) (a : App) (e : List Char)
    (hp : a.state = UiState.FilePrompt)
    (he : fs a.tmpbuf = Except.error e) :
    (handle_input_key_event fs a KeyCode.Enter).2 = false ∧
    (handle_input_key_event fs a KeyCode.Enter).1.content
        = "ERROR: ".toList ++ e ∧
    (handle_input_key_event fs a KeyCode.Enter).1.lines
        = count_newlines ("ERROR: ".toList ++ e) ∧
    (handle_input_key_event fs a KeyCode.Enter).1.state = UiState.Main := by
  rw [handle_input_enter_file fs a hp]
  refine ⟨rfl, ?_, ?_, rfl⟩
  · simp [he]
  · simp [he]

/-- Claim C5 witness: committing a concrete prompt against a failing file
system. -/
theorem c5_open_error_witness :
    (handle_input_key_event fsFail appPrompting KeyCode.Enter).2 = false ∧
    (handle_input_key_event fsFail appPrompting KeyCode.Enter).1.content
        = "ERROR: ".toList ++ "No such file".toList ∧
    (handle_input_key_event fsFail appPrompting KeyCode.Enter).1.lines
        = count_newlines ("ERROR: ".toList ++ "No such file".toList) ∧
    (handle_input_key_event fsFail appPrompting KeyCode.Enter).1.state
        = UiState.Main :=
  c5_open_error fsFail appPrompting "No such file".toList rfl rfl

lemma handle_input_to_main_tmpbuf (fs : FS) (b : App) (k : KeyCode)
    (hst : InPrompt b)
    (hs : (handle_input_key_event fs b k).1.state = UiState.Main) :
    (handle_input_key_event fs b k).1.tmpbuf = [] := by
  rcases hst with h | h
  · cases k
    case Enter =>
      rw [handle_input_enter_file fs b h]
      rfl
    all_goals
      (have hs2 : b.state = UiState.Main := hs
       rw [h] at hs2
       exact absurd hs2 (by decide))
  · cases k
    case Enter =>
      rw [handle_input_enter_search fs b h]
      rfl
    all_goals
      (have hs2 : b.state = UiState.Main := hs
       rw [h] at hs2
       exact absurd hs2 (by decide))

lemma step_tmpbuf_inv (fs : FS) (ev : Event) (b : App)
    (hb : b.state = UiState.Main → b.tmpbuf = []) :
    (stepEvent fs b ev).state = UiState.Main →
      (stepEvent fs b ev).tmpbuf = [] := by
  cases ev with
  | render h => intro hs; exact hb hs
  | key k =>
    simp only [stepEvent]
    intro hs
    cases hst : b.state with
    | Main =>
      rw [handle_key_event_main fs b hst] at hs ⊢
      rw [(handle_main_frame b k).2.2.2.2]
      exact hb hst
    | FilePrompt =>
      rw [handle_key_event_file fs b hst] at hs ⊢
      exact handle_input_to_main_tmpbuf fs b k (Or.inl hst) hs
    | SearchPrompt =>
      rw [handle_key_event_search fs b hst] at hs ⊢
      exact handle_input_to_main_tmpbuf fs b k (Or.inr hst) hs

lemma handle_main_char_o (a : App) :
    handle_main_key_event a (KeyCode.Char 'o')
      = ({ a with state := UiState.FilePrompt
                  log := prompt_string UiState.FilePrompt }, false) := by
  simp [handle_main_key_event]

lemma handle_main_char_s (a : App) :
    handle_main_key_event a (KeyCode.Char 's')
      = ({ a with state := UiState.SearchPrompt
                  log := prompt_string UiState.SearchPrompt }, false) := by
  simp [handle_main_key_event]

/-- Claim C6: in every reachable session state the prompt buffer is empty
whenever the mode is Viewing, so pressing o (or s) enters the prompting
mode with an empty prompt buffer, as if cleared on entry. -/
theorem c6_viewing_prompt_buffer (fs : FS) (a : App)
    (hr : Reachable fs a) (hm : a.state = UiState.Main) :
    a.tmpbuf = [] ∧
    (handle_key_event fs a (KeyCode.Char 'o')).1.state
        = UiState.FilePrompt ∧
    (handle_key_event fs a (KeyCode.Char 'o')).1.tmpbuf = [] ∧
    (handle_key_event fs a (KeyCode.Char 's')).1.state
        = UiState.SearchPrompt ∧
    (handle_key_event fs a (KeyCode.Char 's')).1.tmpbuf = [] := by
  obtain ⟨fname, a0, evs, hnew, hrun⟩ := hr
  have hP0 : a0.state = UiState.Main → a0.tmpbuf = [] := by
    revert hnew
    unfold App.new
    cases fs fname with
    | error e => intro h; cases h
    | ok content =>
      intro h
      injection h with h2
      rw [← h2]
      intro _
      rfl
  have hP : a.state = UiState.Main → a.tmpbuf = [] := by
    subst hrun
    exact runEvents_inv fs
      (fun b => b.state = UiState.Main → b.tmpbuf = []) evs
      (fun ev _ b hb => step_tmpbuf_inv fs ev b hb) a0 hP0
  refine ⟨hP hm, ?_, ?_, ?_, ?_⟩
  · rw [handle_key_event_main fs a hm, handle_main_char_o]
  · rw [handle_key_event_main fs a hm, handle_main_char_o]
    exact hP hm
  · rw [handle_key_event_main fs a hm, handle_main_char_s]
  · rw [handle_key_event_main fs a hm, handle_main_char_s]
    exact hP hm

/-- The session state produced by App::new on fsEmpty. -/
def a0Empty : App :=
  { filename := []
    tmpbuf := []
    content := []
    search := []
    lines := 0
    log := "<log text goes here>".toList
    cur := 0
    state := UiState.Main }

/-- Claim C6 witness: the freshly created session on fsEmpty is reachable
and satisfies the conclusion. -/
theorem c6_viewing_prompt_buffer_witness :
    a0Empty.tmpbuf = [] ∧
    (handle_key_event fsEmpty a0Empty (KeyCode.Char 'o')).1.state
        = UiState.FilePrompt ∧
    (handle_key_event fsEmpty a0Empty (KeyCode.Char 'o')).1.tmpbuf = [] ∧
    (handle_key_event fsEmpty a0Empty (KeyCode.Char 's')).1.state
        = UiState.SearchPrompt ∧
    (handle_key_event fsEmpty a0Empty (KeyCode.Char 's')).1.tmpbuf = [] :=
  c6_viewing_prompt_buffer fsEmpty a0Empty
    ⟨[], a0Empty, [], rfl, rfl⟩ rfl

/-- Claim C7: typing n printable characters into a prompt and pressing
Backspace n times returns the prompt buffer to its original value, in
particular to empty when it started empty. -/
theorem c7_backspace_roundtrip (fs : FS) (a : App) (cs : List Char)
    (hp : InPrompt a) :
    (runEvents fs a (charEvents cs ++ backEvents cs.length)).tmpbuf
      = a.tmpbuf := by
  have hsplit : runEvents fs a (charEvents cs ++ backEvents cs.length)
      = runEvents fs (runEvents fs a (charEvents cs))
          (backEvents cs.length) := by
    rw [runEvents, runEvents, runEvents, List.foldl_append]
  rw [hsplit]
  obtain ⟨h1, h2⟩ := runEvents_chars fs cs a hp
  have hp2 : InPrompt (runEvents fs a (charEvents cs)) := by
    rcases hp with h | h
    · exact Or.inl (by rw [h2, h])
    · exact Or.inr (by rw [h2, h])
  obtain ⟨h3, _⟩ := runEvents_backs fs cs.length _ hp2
  rw [h3, h1, iterate_dropLast_append]

/-- Claim C7 witness: typing two characters then two Backspaces on a
concrete prompting session restores its buffer. -/
theorem c7_backspace_roundtrip_witness :
    (runEvents fsEmpty appPrompting
        (charEvents "ab".toList ++ backEvents "ab".toList.length)).tmpbuf
      = appPrompting.tmpbuf :=
  c7_backspace_roundtrip fsEmpty appPrompting "ab".toList (Or.inl rfl)

/-- Claim C2: over any sequence of Up and Down presses in Viewing mode
(renders interleaved), the post-clamp scroll offset never exceeds
max(0, line_count − H + 2); when line_count ≤ H the post-clamp offset is
always 0; and Up never takes the offset below 0 (it computes
max(offset − 1, 0)). -/
theorem c2_scroll_bounds (fs : FS) (a : App) (evs : List Event) (H : Nat)
    (hm : a.state = UiState.Main)
    (hk : ∀ ev ∈ evs, IsUpDownOrRender ev) :
    (((render_ui (runEvents fs a evs) H).1.cur : ℤ)
        ≤ max 0 ((a.lines : ℤ) - H + 2)) ∧
    (a.lines ≤ H → (render_ui (runEvents fs a evs) H).1.cur = 0) ∧
    (∀ b : App, b.state = UiState.Main →
        ((handle_key_event fs b KeyCode.Up).1.cur : ℤ)
          = max ((b.cur : ℤ) - 1) 0) := by
  have hinv : (runEvents fs a evs).state = UiState.Main ∧
      (runEvents fs a evs).lines = a.lines := by
    refine runEvents_inv fs
      (fun b => b.state = UiState.Main ∧ b.lines = a.lines) evs ?_ a
      ⟨hm, rfl⟩
    intro ev hev b hb
    rcases hk ev hev with rfl | rfl | ⟨h, rfl⟩
    · simp only [stepEvent]
      rw [handle_key_event_main fs b hb.1, handle_main_up]
      exact ⟨hb.1, hb.2⟩
    · simp only [stepEvent]
      rw [handle_key_event_main fs b hb.1, handle_main_down]
      exact ⟨hb.1, hb.2⟩
    · exact hb
  refine ⟨?_, ?_, ?_⟩
  · rw [render_ui_cur, main_ui_fst, hinv.2]
    exact clamp_le a.lines H (runEvents fs a evs).cur
  · intro h
    rw [render_ui_cur, main_ui_fst, hinv.2, if_pos h]
  · intro b hb
    rw [handle_key_event_main fs b hb, handle_main_up]
    rcases Nat.eq_zero_or_pos b.cur with h0 | h0
    · have : (handle_main_key_event b KeyCode.Up).1.cur = b.cur := by
        rw [handle_main_up]
        simp [h0]
      rw [handle_main_up] at this
      rw [this, h0]
      simp
    · have hpos : b.cur > 0 := h0
      simp only [if_pos hpos]
      rw [max_eq_left (by omega)]
      omega

/-- Claim C2 witness: two Down presses and a render on a concrete Viewing
session with a tall viewport, plus an Up press from offset 5. -/
theorem c2_scroll_bounds_witness :
    (((render_ui (runEvents fsEmpty appViewing
          [Event.key KeyCode.Down, Event.key KeyCode.Down,
            Event.render 10]) 10).1.cur : ℤ)
        ≤ max 0 ((appViewing.lines : ℤ) - 10 + 2)) ∧
    (render_ui (runEvents fsEmpty appViewing
        [Event.key KeyCode.Down, Event.key KeyCode.Down,
          Event.render 10]) 10).1.cur = 0 ∧
    ((handle_key_event fsEmpty appViewing KeyCode.Up).1.cur : ℤ)
        = max ((appViewing.cur : ℤ) - 1) 0 := by
  have hk : ∀ ev ∈ [Event.key KeyCode.Down, Event.key KeyCode.Down,
      Event.render 10], IsUpDownOrRender ev := by
    intro ev hev
    simp only [List.mem_cons, List.not_mem_nil, or_false] at hev
    rcases hev with rfl | rfl | rfl
    · exact Or.inr (Or.inl rfl)
    · exact Or.inr (Or.inl rfl)
    · exact Or.inr (Or.inr ⟨10, rfl⟩)
  obtain ⟨w1, w2, w3⟩ := c2_scroll_bounds fsEmpty appViewing
    [Event.key KeyCode.Down, Event.key KeyCode.Down, Event.render 10]
    10 rfl hk
  exact ⟨w1, w2 (by decide), w3 appViewing rfl⟩
